import Mathlib

/-!
A shallow embedding of the YADRO `fwupdate` firmware-update tool
(obmc-yadro-fwupdate) in Lean 4, together with theorems checking the
natural-language specification against the code.

External effects (D-Bus unit control, subprocess execution, file copies,
GPIO/I2C manipulation, flash writes) are modelled as explicit event traces
of type `Ev`; outcomes of external calls that the code branches on are
passed in as oracle parameters.  Fallible code is modelled in
`Except String`.  The x722 NVM image is modelled as a byte function
`Nat -> Nat` (each value taken mod 256) with an explicit size, mirroring
the read-write memory mapping used by `nvm_x722.cpp`.

The repository contains several revisions of the same translation units
(for example `FwUpdBase::install` with and without the empty-file-list
guard).  Where two revisions of a function disagree, both are embedded:
the suffix `V1` marks the older revision.
-/

/-- External actions performed by the updater code (D-Bus calls, spawned
commands, file operations, hardware accesses).  Used to state which side
effects a code path performs and in which order. -/
inductive Ev where
  | startUnit (unit : String)
  | stopUnit (unit : String)
  | umount (fs : String)
  | execCmd (cmd : String)
  | copyTo (dst : String)
  | removeExisting (dst : String)
  | resizeFile (f : String)
  | flashWrite (dev : String) (file : String)
  | setBootPartEv (side : String)
  | unbindSPI
  | bindSPI
  | releaseGpio (nm : String)
  | i2cReadMode
  | i2cWriteMode (v : Nat)
  | i2cClose
  | sleepSec (n : Nat)
  | lockEv (updater : String)
  | unlockEv (updater : String)
  | resetEv (updater : String)
  | installEv (updater : String)
  | verifyEv (file : String)
  | warn (msg : String)
  deriving DecidableEq

namespace FwUpdBase

/-- `FwUpdBase::verify` as in src/unnamed/part_029 lines 28-40: for each
owned file call the signature verifier (`verifyFile`, modelled as the
oracle `vf`; exceptions raised inside the verifier propagate) and throw
`FwupdateError` when it reports the signature invalid. -/
def verify (vf : String → Except String Bool) : List String → Except String Unit
  | [] => .ok ()
  | f :: rest =>
    match vf f with
    | .error e => .error e
    | .ok b =>
      if b then verify vf rest
      else .error ("The " ++ f ++ " signature verification failed!")

/-- `FwUpdBase::verify` as in src/src/fwupdbase.cpp lines 25-33 (older
revision): the boolean result of `verifyFile` is discarded, so only
exceptions raised inside the verifier abort the loop.  The verifier
itself is the spec's opaque capability returning a boolean
(`verify(file, key, hash) -> bool`), as implemented by `verify_file` in
src/src/signature.cpp, which returns false (without throwing) when the
digest comparison fails. -/
def verifyV1 (vf : String → Except String Bool) : List String → Except String Unit
  | [] => .ok ()
  | f :: rest =>
    match vf f with
    | .error e => .error e
    | .ok _ => verifyV1 vf rest

/-- The virtual hooks a concrete updater plugs into `FwUpdBase::install`:
`doBeforeInstall`, `doInstall` (per file) and `doAfterInstall` (which
also reports whether a reboot is required).  Each hook is described by
the external events it performs. -/
structure UpdHooks where
  beforeEvs : Bool → List Ev
  perFileEvs : String → List Ev
  afterEvs : Bool → List Ev
  afterReboot : Bool → Bool

/-- `FwUpdBase::install` as in src/unnamed/part_029 lines 42-58: when the
owned-file list is empty, return false immediately without invoking any
hook; otherwise run doBeforeInstall, doInstall for every owned file in
order, then doAfterInstall (whose result is returned). -/
def install (h : UpdHooks) (files : List String) (reset : Bool) : List Ev × Bool :=
  if files.isEmpty then ([], false)
  else
    (h.beforeEvs reset ++ files.flatMap h.perFileEvs ++ h.afterEvs reset,
     h.afterReboot reset)

/-- `FwUpdBase::install` as in src/src/fwupdbase.cpp lines 35-45 (older
revision, same shape as `UpdaterBase::install` in src/src/firmware.cpp
lines 31-40): no empty-list guard, so the before/after hooks run even
when no files are owned and the result is whatever `doAfterInstall`
returns. -/
def installV1 (h : UpdHooks) (files : List String) (reset : Bool) : List Ev × Bool :=
  (h.beforeEvs reset ++ files.flatMap h.perFileEvs ++ h.afterEvs reset,
   h.afterReboot reset)

end FwUpdBase

namespace IntelPlatformsUpdaterV1

/-- Events of `releaseFlashDrive` in src/src/image_intel.cpp lines 47-61
(older revision): stop five units, then unmount the two writable MTD
partitions. -/
def releaseFlashDriveEvs : List Ev :=
  [.stopUnit "rotate-event-logs.timer", .stopUnit "rotate-event-logs.service",
   .stopUnit "logrotate.timer", .stopUnit "logrotate.service",
   .stopUnit "nv-sync.service",
   .execCmd "umount mtd:rwfs", .execCmd "umount mtd:sofs"]

/-- Events of `IntelPlatformsUpdater::reset` in src/src/image_intel.cpp
lines 63-79 (older revision): release the flash drive, then erase the
writable partitions (the conditional `fw_setenv` call is kept abstract
through the `bootB` flag). -/
def resetEvs (bootB : Bool) : List Ev :=
  releaseFlashDriveEvs ++
  [.execCmd "flash_erase /dev/mtd/rwfs 0 0",
   .execCmd "flash_erase /dev/mtd/sofs 0 0",
   .execCmd "flash_erase /dev/mtd/u-boot-env 0 0"] ++
  (if bootB then [.setBootPartEv "b"] else [])

/-- The `FwUpdBase` hooks of the older `IntelPlatformsUpdater` revision in
src/src/image_intel.cpp: `doBeforeInstall` is not overridden (the base
default does nothing) and `doAfterInstall` (lines 143-150) calls
`reset()` when the reset flag is set and then returns true
unconditionally. -/
def hooks (bootB : Bool) (perFile : String → List Ev) : FwUpdBase.UpdHooks where
  beforeEvs := fun _ => []
  perFileEvs := perFile
  afterEvs := fun reset => if reset then resetEvs bootB else []
  afterReboot := fun _ => true

end IntelPlatformsUpdaterV1

/-- Boot partition as determined by `getBootPart` in
src/src/image_intel.cpp lines 189-224. -/
inductive BootPart where
  | image_a
  | image_b
  | unknown
  deriving DecidableEq

namespace IntelPlatformsUpdater

/-- Units released by `releaseFlashDrive` in src/src/image_intel.cpp
lines 318-344 (current revision). -/
def flashUnits : List String :=
  ["rotate-event-logs.timer", "rotate-event-logs.service",
   "logrotate.timer", "logrotate.service", "nv-sync.service"]

/-- `releaseFlashDrive` (current revision): stop each unit that exists,
then unmount every mounted MTD partition found in /proc/mounts (the
mount table is the oracle `mounts`, a list of filesystem/mount-point
pairs). -/
def releaseFlashDrive (unitExists : String → Bool) (mounts : List (String × String)) : List Ev :=
  (flashUnits.filter unitExists).map Ev.stopUnit ++ mounts.map (fun p => Ev.umount p.2)

/-- `IntelPlatformsUpdater::doInstall` from src/src/image_intel.cpp lines
372-432: `image-mtd` releases the flash drive and is written to
/dev/mtd0; `image-runtime` is written to the inactive boot partition and
the boot selection is flipped (failing hard when the current boot
partition cannot be determined); `image-u-boot` is written to
/dev/mtd/u-boot unless its size is zero bytes, in which case it is
skipped silently; any other name is an error.  The success path of the
spawned `flashcp` is modelled (a non-zero exit status is a hard failure
in the code). -/
def doInstall (unitExists : String → Bool) (mounts : List (String × String))
    (bootPart : BootPart) (filename : String) (fsize : Nat) :
    Except String (List Ev) :=
  if filename = "image-mtd" then
    .ok (releaseFlashDrive unitExists mounts ++ [.flashWrite "/dev/mtd0" filename])
  else if filename = "image-runtime" then
    match bootPart with
    | .image_a => .ok [.flashWrite "/dev/mtd/image-b" filename, .setBootPartEv "b"]
    | .image_b => .ok [.flashWrite "/dev/mtd/image-a" filename, .setBootPartEv "a"]
    | .unknown => .error "Unable to determine boot address!"
  else if filename = "image-u-boot" then
    if fsize = 0 then .ok []
    else .ok [.flashWrite "/dev/mtd/u-boot" filename]
  else .error ("No partition defined for " ++ filename)

end IntelPlatformsUpdater

namespace OpenBmcUpdater

/-- `OpenBmcUpdater::do_install` from src/src/openbmc.cpp lines 190-204:
remove a previously staged file of the same name if present, then copy
the payload into the runtime staging path.  The file size is never
inspected; the copy happens for zero-byte payloads as well. -/
def do_install (destExists : Bool) (filename : String) (fsize : Nat) : List Ev :=
  (if destExists then [.removeExisting filename] else []) ++ [.copyTo filename]

/-- `OpenBmcUpdater::lock` from src/src/openbmc.cpp lines 164-170: start
the reboot-guard-enable unit (the D-Bus call outcome is the oracle
`su`), then set the `locked` flag. -/
def lock (su : String → Except String Unit) (locked : Bool) :
    Except String (Bool × List Ev) :=
  match su "reboot-guard-enable" with
  | .error e => .error e
  | .ok _ => .ok (true, [.startUnit "reboot-guard-enable"])

/-- `OpenBmcUpdater::unlock` from src/src/openbmc.cpp lines 172-181: only
when the `locked` flag is set, start the reboot-guard-disable unit and
clear the flag; otherwise do nothing. -/
def unlock (su : String → Except String Unit) (locked : Bool) :
    Except String (Bool × List Ev) :=
  if locked then
    match su "reboot-guard-disable" with
    | .error e => .error e
    | .ok _ => .ok (false, [.startUnit "reboot-guard-disable"])
  else .ok (locked, [])

end OpenBmcUpdater

namespace BIOSUpdater

/-- GPIO line names used by the BIOS updater (src/src/image_bios.cpp
lines 37-44; PCH_POWER_PIN is a build-time option). -/
def gpioNameBIOSSel : String := "MIO_BIOS_SEL"

def gpioNameActiveFlashSel : String := "SPI_BIOS_ACTIVE_FLASH_SEL"

def pchPowerPin : String := "PCH_PWR_EN"

/-- Mutable state of a `BIOSUpdater` instance: the `locked` flag, the
PCA9698 I2C file descriptor (negative when closed) and whether each of
the three GPIO line handles is currently requested. -/
structure BiosState where
  locked : Bool
  pca9698FD : Int
  gpioBIOSSel : Bool
  gpioActiveFlashSel : Bool
  gpioPCHPower : Bool
  deriving DecidableEq

/-- Outcomes of the external world consulted by `BIOSUpdater::unlock`:
whether the SPI driver is currently bound, whether the bounded
bind/unbind retry loop completes in time, whether releasing each GPIO
line succeeds, and the value read from the PCA9698 mode register. -/
structure BiosExt where
  spiBound : Bool
  unbindOk : Bool
  releaseGpioOk : String → Bool
  i2cMode : Nat

/-- `unbindSPIDriver` from src/src/image_bios.cpp lines 120-126: only
acts when the driver is bound; the bounded retry loop times out with a
hard error when the unbind does not take effect. -/
def unbindSPIm (ext : BiosExt) : Except String (List Ev) :=
  if ext.spiBound then
    if ext.unbindOk then .ok [.unbindSPI]
    else .error "The SPI driver unbinding timed out!"
  else .ok []

/-- `releaseGpio` from src/src/image_bios.cpp lines 160-178: when the
line handle is held, release it back to input mode (throwing on
failure) and reset the handle; when it is not held, do nothing. -/
def releaseGpioCall (ok : Bool) (nm : String) (held : Bool) :
    Except String (Bool × List Ev) :=
  if held then
    if ok then .ok (false, [.releaseGpio nm])
    else .error ("Unable to release GPIO " ++ nm ++ "!")
  else .ok (false, [])

/-- `BIOSUpdater::unlock` from src/src/image_bios.cpp lines 335-376.
Everything is guarded by the `locked` flag.  When locked: unbind the SPI
driver, release the active-flash-select GPIO (GOLDEN_FLASH_SUPPORT
builds, flag `useGolden`) and the BIOS-select GPIO, release the
PCH-power GPIO, then (USE_PCA9698_OEPOL builds, flag `usePca`, and only
when the descriptor was left open by `lock`) read the PCA9698 mode
register, clear the output-enable polarity bit if it is set, and close
the descriptor; finally sleep 10 seconds for the management engine and
clear the `locked` flag.  The unchecked `i2c_smbus_*` calls cannot
fail. -/
def unlock (ext : BiosExt) (useGolden usePca : Bool) (s : BiosState) :
    Except String (BiosState × List Ev) :=
  if s.locked then
    match unbindSPIm ext with
    | .error e => .error e
    | .ok ev1 =>
      match (if useGolden then
               releaseGpioCall (ext.releaseGpioOk gpioNameActiveFlashSel)
                 gpioNameActiveFlashSel s.gpioActiveFlashSel
             else .ok (s.gpioActiveFlashSel, [])) with
      | .error e => .error e
      | .ok (afs, ev2) =>
        match releaseGpioCall (ext.releaseGpioOk gpioNameBIOSSel) gpioNameBIOSSel
                s.gpioBIOSSel with
        | .error e => .error e
        | .ok (bsel, ev3) =>
          match releaseGpioCall (ext.releaseGpioOk pchPowerPin) pchPowerPin
                  s.gpioPCHPower with
          | .error e => .error e
          | .ok (pch, ev4) =>
            let fdEvs :=
              if usePca ∧ 0 ≤ s.pca9698FD then
                if ext.i2cMode % 2 = 1 then
                  ((-1 : Int), [Ev.i2cReadMode, Ev.i2cWriteMode (ext.i2cMode - 1), Ev.i2cClose])
                else ((-1 : Int), [Ev.i2cReadMode, Ev.i2cClose])
              else (s.pca9698FD, [])
            .ok ({ locked := false, pca9698FD := fdEvs.1, gpioBIOSSel := bsel,
                   gpioActiveFlashSel := afs, gpioPCHPower := pch },
                 ev1 ++ ev2 ++ ev3 ++ ev4 ++ fdEvs.2 ++ [.sleepSec 10])
  else .ok (s, [])

end BIOSUpdater

namespace FwUpdate

/-- A registered updater as seen by the coordinator: its identity plus
the reboot-required result its `install` reports. -/
structure Upd where
  name : String
  installReboot : Bool

/-- The reverse iteration of `FwUpdate::lock` (src/src/fwupdate.cpp lines
102-111): walk the registration list from the back, invoking each
updater's `lock`. -/
def goLock : List Upd → List Ev
  | [] => []
  | u :: rest => goLock rest ++ [.lockEv u.name]

/-- `FwUpdate::lock`: nothing is locked when the `force` (dangerous
bypass) flag is set; otherwise lock every updater in reverse
registration order. -/
def lockTrace (force : Bool) (us : List Upd) : List Ev :=
  if force then [] else goLock us

/-- `FwUpdate::unlock` (src/src/fwupdate.cpp lines 113-119): unlock every
updater in forward registration order (regardless of `force`). -/
def unlockTrace (us : List Upd) : List Ev :=
  us.map (fun u => Ev.unlockEv u.name)

/-- `FwUpdate::reset` (src/src/fwupdate.cpp lines 121-129): lock all,
reset each updater in forward order, unlock all. -/
def resetAll (force : Bool) (us : List Upd) : List Ev :=
  lockTrace force us ++ us.map (fun u => Ev.resetEv u.name) ++ unlockTrace us

/-- `FwUpdate::install` (src/src/fwupdate.cpp lines 268-283): lock all,
run each updater's `install` in forward order OR-ing the
reboot-required results, unlock all. -/
def installAll (force : Bool) (us : List Upd) : List Ev × Bool :=
  (lockTrace force us ++ us.map (fun u => Ev.installEv u.name) ++ unlockTrace us,
   us.foldl (fun r u => r || u.installReboot) false)

/-- The warning printed by `check_machine_type` when the local machine
name is unknown. -/
def machineWarn : String :=
  "WARNING: Current machine name is undefined, the check is skipped."

/-- `FwUpdate::check_machine_type` from src/src/fwupdate.cpp lines
227-251.  `currentMachine` is the OPENBMC_TARGET_MACHINE value read from
the local os-release file, `targetMachine` the MachineName tag of the
bundle MANIFEST (both via `get_cfg_value`, which yields the empty string
when the key is absent).  An empty local machine name degrades to a
printed warning; otherwise any difference is a hard error. -/
def check_machine_type (currentMachine targetMachine : String) :
    Except String (List Ev) :=
  if currentMachine = "" then .ok [.warn machineWarn]
  else if currentMachine ≠ targetMachine then
    .error "Frimware package is not compatible with this system."
  else .ok []

/-- `FwUpdate::verify` from src/src/fwupdate.cpp lines 253-266:
system-level verification of MANIFEST and publickey (its outcome is the
oracle `sysValid`; failure is a hard error), then the machine-type
check, then every updater's own file verification (outcome `rest`). -/
def verify (sysValid : Bool) (currentMachine targetMachine : String)
    (rest : Except String Unit) : Except String Unit :=
  if sysValid then
    match check_machine_type currentMachine targetMachine with
    | .error e => .error e
    | .ok _ => rest
  else .error "System level verification failed!"

end FwUpdate

namespace openpower

/-- Split a text into lines exactly as the `std::getline` loop of
`getPartsToClear` does: one line per consumed newline character, plus a
final line for a trailing fragment without a newline; a trailing
newline does not produce an extra empty line and an empty input yields
no lines. -/
def getLines : List Char → List (List Char)
  | [] => []
  | c :: rest =>
    if c = '\n' then [] :: getLines rest
    else
      match getLines rest with
      | [] => [[c]]
      | l :: ls => (c :: l) :: ls

/-- The flag field of a flash-inventory line: the substring starting at
the first opening bracket and running to the end of the line (this is
exactly the `line.substr(line.find('['))` of the code); empty when the
line has no bracket. -/
def flagsField (line : List Char) : List Char :=
  line.dropWhile (fun c => c ≠ '[')

/-- The body of the `getPartsToClear` parsing loop in
src/src/openpower.cpp lines 32-68 for one line: skip lines without an
opening bracket; skip lines whose flag field has no reprovision flag
(capital F); otherwise extract the partition name, the token between the
first run of spaces and the next space (skipping the line when any of
the three position lookups fails), and record whether the flag field
contains the ECC flag (capital E). -/
def perLine (line : List Char) : Option (List Char × Bool) :=
  let flags := flagsField line
  if flags = [] then none
  else if flags.contains 'F' then
    let r1 := line.dropWhile (fun c => c ≠ ' ')
    if r1 = [] then none
    else
      let r2 := r1.dropWhile (fun c => c = ' ')
      if r2 = [] then none
      else
        if r2.dropWhile (fun c => c ≠ ' ') = [] then none
        else some (r2.takeWhile (fun c => c ≠ ' '), flags.contains 'E')
  else none

/-- `ret[name] = value` on the partition map (`std::map` keyed by name):
overwrite the entry when the key exists, append it otherwise. -/
def mapAssign (m : List (List Char × Bool)) (k : List Char) (v : Bool) :
    List (List Char × Bool) :=
  match m with
  | [] => [(k, v)]
  | (k', v') :: rest =>
    if k' = k then (k, v) :: rest else (k', v') :: mapAssign rest k v

/-- Value stored for a key in the partition map. -/
def findVal (m : List (List Char × Bool)) (k : List Char) : Option Bool :=
  match m with
  | [] => none
  | (k', v') :: rest => if k' = k then some v' else findVal rest k

/-- `getPartsToClear(info)` from src/src/openpower.cpp lines 26-71: run
the per-line extraction over every line of the pflash inventory output,
accumulating the partition-name to ECC-flag map. -/
def getPartsToClear (info : List Char) : List (List Char × Bool) :=
  (getLines info).foldl
    (fun m l =>
      match perLine l with
      | none => m
      | some (n, e) => mapAssign m n e)
    []

end openpower

namespace NvmX722

/-- Offset of the 10GBE region inside a BIOS image (nvm_x722.hpp). -/
def nvmOffset : Nat := 0x00a36000

/-- Size of the 10GBE NVM image (nvm_x722.hpp). -/
def nvmSize : Nat := 0x005ba000

/-- Word offset of the bank control word (nvm_x722.hpp). -/
def controlWord : Nat := 0x0000

/-- Value of a valid bank control word (nvm_x722.hpp). -/
def bankValid : Nat := 0x0249

/-- Size of one NVM bank in bytes (nvm_x722.hpp). -/
def bankSize : Nat := 0x10000

/-- First pointer word of the MAC-table chain (nvm_x722.hpp). -/
def magicOffset1 : Nat := 0x0048

/-- Fixed word offset added between the two chained reads (nvm_x722.hpp). -/
def magicOffset2 : Nat := 0x0018

/-- Words of header before each MAC entry (nvm_x722.hpp). -/
def macHeaderSize : Nat := 0x0001

/-- Word offset of the bank checksum word (nvm_x722.hpp). -/
def checksumOffset : Nat := 0x003f

/-- Base constant of the additive checksum complement (nvm_x722.hpp). -/
def checksumBase : Nat := 0xbaba

/-- Word offset of the pointer to the VPD module (nvm_x722.hpp). -/
def vpdOffset : Nat := 0x002f

/-- Size of the VPD module in bytes (nvm_x722.hpp). -/
def vpdSize : Nat := 1024

/-- Size of the trailing PCIe ALT module in bytes (nvm_x722.hpp). -/
def pcieAltSize : Nat := 1024

/-- The memory-mapped NVM image: the byte content of the opened file (a
total function; only indices below `size` are ever accessed), the mapped
file size, and the byte offset `start` of the selected valid bank. -/
structure Nvm where
  data : Nat → Nat
  size : Nat
  start : Nat

/-- Byte read from the mapping; values are 8-bit. -/
def byteAt (d : Nat → Nat) (i : Nat) : Nat := d i % 256

/-- `NvmX722::wordPtr` (nvm_x722.cpp lines 134-142): bounds-checked
translation of a word offset relative to the selected bank into a byte
position; fails when the requested access would run past the mapped
size. -/
def wordPtr (m : Nvm) (offset maxSize : Nat) : Except String Nat :=
  if m.start + offset * 2 + maxSize > m.size then .error "Invalid 10GBE NVM"
  else .ok (m.start + offset * 2)

/-- `NvmX722::readWord` (nvm_x722.cpp lines 144-148): bounds-checked
little-endian 16-bit read at a word offset relative to the selected
bank. -/
def readWord (m : Nvm) (offset : Nat) : Except String Nat :=
  match wordPtr m offset 2 with
  | .error e => .error e
  | .ok p => .ok (byteAt m.data p + 256 * byteAt m.data (p + 1))

/-- `NvmX722::NvmX722` (nvm_x722.cpp lines 17-79), after the file has
been opened and mapped (`data`, `size`): reject files smaller than the
10GBE region; take the region start (0 for a bare NVM image, `nvmOffset`
inside a full BIOS image); select the primary bank if its control word
is valid, else the secondary bank one `bankSize` further, else fail
hard.  Bounds errors from the probing reads propagate. -/
def construct (data : Nat → Nat) (size : Nat) : Except String Nvm :=
  if size < nvmSize then
    .error "The image file is too small to contain a 10GBE region"
  else
    let start := if size = nvmSize then 0 else nvmOffset
    match readWord ⟨data, size, start⟩ controlWord with
    | .error e => .error e
    | .ok w =>
      if w = bankValid then .ok ⟨data, size, start⟩
      else
        match readWord ⟨data, size, start + bankSize⟩ controlWord with
        | .error e => .error e
        | .ok w2 =>
          if w2 = bankValid then .ok ⟨data, size, start + bankSize⟩
          else .error "No valid bank in 10GBE"

/-- The word offset of the MAC table: two chained pointer reads
(`getMac`/`setMac`, nvm_x722.cpp lines 90-93 and 109-112).  All offset
arithmetic is on the 16-bit `word_t`, hence the mod 65536. -/
def macOffset (m : Nvm) : Except String Nat :=
  match readWord m magicOffset1 with
  | .error e => .error e
  | .ok o1 =>
    match readWord m ((o1 + magicOffset2) % 65536) with
    | .error e => .error e
    | .ok o3 => .ok (((o1 + magicOffset2) % 65536 + o3) % 65536)

/-- The six bytes of one MAC entry starting at byte position `p`. -/
def macBytes (d : Nat → Nat) (p : Nat) : List Nat :=
  [byteAt d p, byteAt d (p + 1), byteAt d (p + 2),
   byteAt d (p + 3), byteAt d (p + 4), byteAt d (p + 5)]

/-- The PF MAC read loop of `NvmX722::getMac` (nvm_x722.cpp lines
96-102): for each of the `n` remaining entries skip the one-word entry
header, read six bytes (bounds-checked), and advance by three words. -/
def readMacLoop (m : Nvm) : Nat → Nat → Except String (List (List Nat))
  | 0, _ => .ok []
  | n + 1, offset =>
    match wordPtr m ((offset + macHeaderSize) % 65536) 6 with
    | .error e => .error e
    | .ok p =>
      match readMacLoop m n (((offset + macHeaderSize) % 65536 + 3) % 65536) with
      | .error e => .error e
      | .ok rest => .ok (macBytes m.data p :: rest)

/-- Number of PF MAC addresses in the NVM image (maxMac, nvm_x722.hpp). -/
def maxMac : Nat := 4

/-- `NvmX722::getMac` (nvm_x722.cpp lines 86-105). -/
def getMac (m : Nvm) : Except String (List (List Nat)) :=
  match macOffset m with
  | .error e => .error e
  | .ok off => readMacLoop m maxMac off

/-- Write the six bytes of one MAC entry (`std::copy` of a `mac_t`) at
byte position `p`; each stored value is an 8-bit byte. -/
def write6 (d : Nat → Nat) (p : Nat) (mc : List Nat) : Nat → Nat :=
  fun j =>
    if j = p then mc.getD 0 0 % 256
    else if j = p + 1 then mc.getD 1 0 % 256
    else if j = p + 2 then mc.getD 2 0 % 256
    else if j = p + 3 then mc.getD 3 0 % 256
    else if j = p + 4 then mc.getD 4 0 % 256
    else if j = p + 5 then mc.getD 5 0 % 256
    else d j

/-- The PF MAC write loop of `NvmX722::setMac` (nvm_x722.cpp lines
115-121), mirroring the read loop: skip the entry header, write six
bytes (bounds-checked) and advance by three words. -/
def writeMacLoop (m : Nvm) : (Nat → Nat) → Nat → List (List Nat) →
    Except String (Nat → Nat)
  | d, _, [] => .ok d
  | d, offset, mc :: rest =>
    match wordPtr m ((offset + macHeaderSize) % 65536) 6 with
    | .error e => .error e
    | .ok p =>
      writeMacLoop m (write6 d p mc) (((offset + macHeaderSize) % 65536 + 3) % 65536) rest

/-- The summation loop of `NvmX722::calcChecksum` (nvm_x722.cpp lines
155-170) over the words of the selected bank: skip the checksum word
itself, skip the VPD module (`vpdSize` bytes starting at the word
`vpdStart` read from the VPD pointer), stop at the trailing PCIe ALT
module, and accumulate everything else in a wrapping 16-bit sum. -/
def checksumLoop (m : Nvm) (vpdStart : Nat) : Nat → Nat → Nat → Except String Nat
  | 0, _, acc => .ok acc
  | fuel + 1, i, acc =>
    if i = checksumOffset then checksumLoop m vpdStart fuel (i + 1) acc
    else if vpdStart ≤ i ∧ i < vpdStart + vpdSize / 2 then
      checksumLoop m vpdStart fuel (i + 1) acc
    else if (bankSize - pcieAltSize) / 2 ≤ i then .ok acc
    else
      match readWord m i with
      | .error e => .error e
      | .ok w => checksumLoop m vpdStart fuel (i + 1) ((acc + w) % 65536)

/-- `NvmX722::calcChecksum` (nvm_x722.cpp lines 150-173): the 16-bit
additive complement `checksumBase - sum` over the bank words described
in `checksumLoop`. -/
def calcChecksum (m : Nvm) : Except String Nat :=
  match readWord m vpdOffset with
  | .error e => .error e
  | .ok vpdStart =>
    match checksumLoop m vpdStart (bankSize / 2) 0 0 with
    | .error e => .error e
    | .ok s => .ok ((checksumBase + 65536 - s) % 65536)

/-- `NvmX722::setMac` (nvm_x722.cpp lines 107-132): locate the MAC table
through the same chained pointer reads as `getMac`, write the entries,
recompute the checksum over the updated bank and store it (little
endian) at the checksum word, then sync the mapping (the success path of
`msync` is modelled; its failure is a hard error in the code). -/
def setMac (m : Nvm) (mac : List (List Nat)) : Except String Nvm :=
  match macOffset m with
  | .error e => .error e
  | .ok off =>
    match writeMacLoop m m.data off mac with
    | .error e => .error e
    | .ok d1 =>
      match wordPtr m checksumOffset 2 with
      | .error e => .error e
      | .ok pc =>
        match calcChecksum ⟨d1, m.size, m.start⟩ with
        | .error e => .error e
        | .ok c =>
          .ok ⟨fun j => if j = pc then c % 256
                        else if j = pc + 1 then c / 256
                        else d1 j,
               m.size, m.start⟩

end NvmX722

namespace openpower

/-- The flash-inventory example line from the specification. -/
def exLine : List Char :=
  ("ID=06 MVPD 0x0012d000..0x001bd000 (actual=0x00090000) [E--P--F-C-]").toList

/-- The partition name extracted from `exLine`. -/
def mvpdName : List Char := ("MVPD").toList

/-- An inventory line whose flag field has no F flag. -/
def noFLine : List Char :=
  ("ID=07 DJVPD 0x0012d000..0x001bd000 (actual=0x00090000) [E--P--C-]").toList

end openpower

namespace NvmX722

/-- A concrete well-formed NVM image content (bank at offset 0): a valid
control word, a VPD pointer of 0, the MAC-table pointer chain
0x48 -> 0x118 -> table at word 0x318 with all-zero MAC entries, and the
correct stored checksum 0xbaba. -/
def dataW : Nat → Nat := fun i =>
  if i = 0 then 0x49
  else if i = 1 then 0x02
  else if i = 126 then 0xba
  else if i = 127 then 0xba
  else if i = 145 then 0x01
  else if i = 561 then 0x02
  else 0

/-- The mapped image for `dataW`: a bare NVM file of exactly `nvmSize`
bytes with the primary bank selected. -/
def mW : Nvm := ⟨dataW, nvmSize, 0⟩

/-- The all-zero MAC address list read out of `mW`. -/
def macZ : List (List Nat) :=
  [[0, 0, 0, 0, 0, 0], [0, 0, 0, 0, 0, 0], [0, 0, 0, 0, 0, 0], [0, 0, 0, 0, 0, 0]]

/-- A bare NVM image whose primary bank control word is invalid (zero)
while the secondary bank, one `bankSize` further, carries the valid
marker. -/
def data4W : Nat → Nat := fun i =>
  if i = 0x10000 then 0x49
  else if i = 0x10001 then 0x02
  else 0

end NvmX722

/-- Claim C1 (amended part): for the revision of `FwUpdBase::verify` that
checks the verifier's result (src/unnamed/part_029 lines 28-40), a normal
return guarantees that the signature verifier confirmed every owned
file; any unconfirmed file makes `verify` throw, so installation never
starts.  (The older revision in src/src/fwupdbase.cpp lines 25-33
discards the verifier's boolean result; see the counterexample.) -/
theorem FwUpdBase.verify_ok_all_files_verified
    (vf : String → Except String Bool) (files : List String)
    (h : FwUpdBase.verify vf files = .ok ()) :
    ∀ f ∈ files, vf f = .ok true := by
  induction files with
  | nil => intro f hf; cases hf
  | cons a rest ih =>
    intro f hf
    rw [FwUpdBase.verify] at h
    cases hva : vf a with
    | error e => rw [hva] at h; cases h
    | ok b =>
      rw [hva] at h
      cases b with
      | false => simp at h
      | true =>
        simp only [if_true] at h
        rcases List.mem_cons.mp hf with rfl | hmem
        · exact hva
        · exact ih h f hmem

/-- Witness for C1: a verifier that confirms everything lets `verify`
return normally, and the theorem then yields confirmation of the owned
file. -/
theorem FwUpdBase.verify_ok_all_files_verified_witness :
    (fun _ => (.ok true : Except String Bool)) "image-bmc" = .ok true :=
  FwUpdBase.verify_ok_all_files_verified (fun _ => .ok true) ["image-bmc"] rfl
    "image-bmc" (by simp)

/-- Claim C1 (counterexample): in the revision of `FwUpdBase::verify` at
src/src/fwupdbase.cpp lines 25-33 the boolean result of the signature
verifier is discarded, so with a verifier that reports the signature
invalid (returns false, as `verify_file` in src/src/signature.cpp lines
121-185 does when the digest comparison fails) `verify` still returns
normally although the file did not pass verification. -/
theorem FwUpdBase.verifyV1_ignores_failed_signature :
    FwUpdBase.verifyV1 (fun _ => .ok false) ["image-bmc"] = .ok () ∧
    (fun _ => (.ok false : Except String Bool)) "image-bmc" ≠ .ok true := by
  exact ⟨rfl, by simp⟩

/-- Claim C2 (amended part): for the revision of `FwUpdBase::install`
with the empty-list guard (src/unnamed/part_029 lines 42-58), an updater
owning no files is a no-op returning false for both values of the reset
flag: no before-install, per-file or after-install hook runs. -/
theorem FwUpdBase.install_empty_noop :
    ∀ (h : FwUpdBase.UpdHooks) (reset : Bool),
      FwUpdBase.install h [] reset = ([], false) := by
  intro h reset
  rfl

/-- Claim C2 (counterexample): the revision of `FwUpdBase::install` at
src/src/fwupdbase.cpp lines 35-45 has no empty-list guard, so with the
hooks of the contemporaneous `IntelPlatformsUpdater` revision
(src/src/image_intel.cpp lines 143-150, `doAfterInstall` returns true
unconditionally and performs the factory reset when requested) an
updater owning no files returns true, and with the reset flag it even
performs the partition-erase actions. -/
theorem FwUpdBase.installV1_empty_not_noop :
    (FwUpdBase.installV1 (IntelPlatformsUpdaterV1.hooks false (fun _ => [])) [] false).2
      = true ∧
    (FwUpdBase.installV1 (IntelPlatformsUpdaterV1.hooks false (fun _ => [])) [] true).1
      ≠ [] := by
  exact ⟨rfl, by decide⟩

/-- Claim C9 (counterexample): `doInstall` does not treat every zero-byte
payload as intentionally absent.  A zero-byte `image-mtd` is still
written to /dev/mtd0 by `IntelPlatformsUpdater::doInstall`
(src/src/image_intel.cpp lines 372-432; the zero-size check at lines
403-413 applies only to `image-u-boot`), and `OpenBmcUpdater::do_install`
(src/src/openbmc.cpp lines 190-204) copies the payload into the staging
path without ever looking at its size. -/
theorem IntelPlatformsUpdater.doInstall_zero_byte_not_skipped :
    IntelPlatformsUpdater.doInstall (fun _ => false) [] BootPart.image_a "image-mtd" 0
      = .ok [Ev.flashWrite "/dev/mtd0" "image-mtd"] ∧
    OpenBmcUpdater.do_install false "image-bmc" 0 = [Ev.copyTo "image-bmc"] := by
  exact ⟨rfl, rfl⟩

/-- Claim C9 (amended part): only the payload named `image-u-boot` gets
the zero-byte treatment, in `IntelPlatformsUpdater::doInstall`
(src/src/image_intel.cpp lines 403-413): a zero-byte `image-u-boot` is
skipped without error and without any write; a non-empty one is written
to /dev/mtd/u-boot. -/
theorem IntelPlatformsUpdater.doInstall_uboot_zero_skip :
    ∀ (ue : String → Bool) (mounts : List (String × String)) (bp : BootPart) (n : Nat),
      IntelPlatformsUpdater.doInstall ue mounts bp "image-u-boot" n =
        .ok (if n = 0 then []
             else [Ev.flashWrite "/dev/mtd/u-boot" "image-u-boot"]) := by
  intro ue mounts bp n
  rw [IntelPlatformsUpdater.doInstall.eq_def, if_neg (by decide), if_neg (by decide),
    if_pos rfl]
  split <;> rfl

/-- Claim C3: `verify()` throws when the locally configured machine name
and the manifest MachineName are both non-empty and differ; an empty
(unknown) local machine name never fails the machine-type check, which
degrades to a printed warning, and verification proceeds with the
remaining steps (src/src/fwupdate.cpp lines 227-251 and 253-266). -/
theorem FwUpdate.machine_type_check_spec :
    (∀ cur tgt : String, cur ≠ "" → tgt ≠ "" → cur ≠ tgt →
       FwUpdate.check_machine_type cur tgt =
         .error "Frimware package is not compatible with this system.") ∧
    (∀ tgt : String, FwUpdate.check_machine_type "" tgt =
       .ok [Ev.warn FwUpdate.machineWarn]) ∧
    (∀ (cur tgt : String) (rest : Except String Unit), cur ≠ "" → tgt ≠ "" →
       cur ≠ tgt →
       FwUpdate.verify true cur tgt rest =
         .error "Frimware package is not compatible with this system.") ∧
    (∀ (tgt : String) (rest : Except String Unit),
       FwUpdate.verify true "" tgt rest = rest) := by
  have hc : ∀ cur tgt : String, cur ≠ "" → cur ≠ tgt →
      FwUpdate.check_machine_type cur tgt =
        .error "Frimware package is not compatible with this system." := by
    intro cur tgt hne hdiff
    rw [FwUpdate.check_machine_type, if_neg hne, if_pos hdiff]
  have hw : ∀ tgt : String, FwUpdate.check_machine_type "" tgt =
      .ok [Ev.warn FwUpdate.machineWarn] := by
    intro tgt
    rw [FwUpdate.check_machine_type, if_pos rfl]
  refine ⟨fun cur tgt h1 _ h3 => hc cur tgt h1 h3, hw, ?_, ?_⟩
  · intro cur tgt rest h1 _ h3
    rw [FwUpdate.verify, if_pos rfl, hc cur tgt h1 h3]
  · intro tgt rest
    rw [FwUpdate.verify, if_pos rfl, hw tgt]

/-- Witness for C3: with local machine vesnin and bundle machine vegman
the check and the whole verification fail; with an unknown local
machine the check passes with a warning and verification reduces to the
remaining steps. -/
theorem FwUpdate.machine_type_check_spec_witness :
    FwUpdate.check_machine_type "vesnin" "vegman" =
      .error "Frimware package is not compatible with this system." ∧
    FwUpdate.verify true "" "vegman" (.ok ()) = .ok () := by
  constructor
  · exact FwUpdate.machine_type_check_spec.1 "vesnin" "vegman" (by decide)
      (by decide) (by decide)
  · exact FwUpdate.machine_type_check_spec.2.2.2 "vegman" (.ok ())

/-- The reverse iteration of `FwUpdate::lock` visits the registration
list from the back. -/
theorem FwUpdate.goLock_eq_reverse_map (us : List FwUpdate.Upd) :
    FwUpdate.goLock us = us.reverse.map (fun u => Ev.lockEv u.name) := by
  induction us with
  | nil => rfl
  | cons u rest ih =>
    rw [FwUpdate.goLock, ih]
    simp

/-- Claim C7: in the non-bypass mode (`--force` not given), the
coordinator locks the updaters in reverse registration order and unlocks
them in forward registration order, and both `reset()` and `install()`
bracket all their per-updater mutations between the lock pass and the
unlock pass (stack discipline); `install` ORs the per-updater
reboot-required results (src/src/fwupdate.cpp lines 102-129 and
268-283). -/
theorem FwUpdate.lock_reverse_unlock_forward :
    ∀ us : List FwUpdate.Upd,
      FwUpdate.lockTrace false us = us.reverse.map (fun u => Ev.lockEv u.name) ∧
      FwUpdate.unlockTrace us = us.map (fun u => Ev.unlockEv u.name) ∧
      FwUpdate.resetAll false us =
        us.reverse.map (fun u => Ev.lockEv u.name) ++
        us.map (fun u => Ev.resetEv u.name) ++
        us.map (fun u => Ev.unlockEv u.name) ∧
      (FwUpdate.installAll false us).1 =
        us.reverse.map (fun u => Ev.lockEv u.name) ++
        us.map (fun u => Ev.installEv u.name) ++
        us.map (fun u => Ev.unlockEv u.name) ∧
      (FwUpdate.installAll false us).2 = us.any (fun u => u.installReboot) := by
  intro us
  have hl : FwUpdate.lockTrace false us =
      us.reverse.map (fun u => Ev.lockEv u.name) := by
    rw [FwUpdate.lockTrace, if_neg (by simp)]
    exact FwUpdate.goLock_eq_reverse_map us
  have hor : ∀ (l : List FwUpdate.Upd) (b : Bool),
      l.foldl (fun r u => r || u.installReboot) b = (b || l.any (fun u => u.installReboot)) := by
    intro l
    induction l with
    | nil => intro b; simp
    | cons u rest ih =>
      intro b
      rw [List.foldl_cons, ih, List.any_cons]
      cases b <;> cases u.installReboot <;> simp
  refine ⟨hl, rfl, ?_, ?_, ?_⟩
  · rw [FwUpdate.resetAll, hl, FwUpdate.unlockTrace, List.append_assoc]
  · show FwUpdate.lockTrace false us ++ _ ++ FwUpdate.unlockTrace us = _
    rw [hl, FwUpdate.unlockTrace, List.append_assoc]
  · show us.foldl (fun r u => r || u.installReboot) false = _
    rw [hor us false]
    simp

/-- Every successful `BIOSUpdater::unlock` leaves the `locked` flag
clear. -/
theorem BIOSUpdater.unlock_ok_unlocked
    (ext : BIOSUpdater.BiosExt) (ug up : Bool) (s : BIOSUpdater.BiosState)
    (r : BIOSUpdater.BiosState × List Ev)
    (h : BIOSUpdater.unlock ext ug up s = .ok r) : r.1.locked = false := by
  rw [BIOSUpdater.unlock] at h
  by_cases hl : s.locked
  · rw [if_pos hl] at h
    split at h
    · cases h
    · split at h
      · cases h
      · split at h
        · cases h
        · split at h
          · cases h
          · cases h
            rfl
  · rw [if_neg hl] at h
    cases h
    simpa using hl

/-- Claim C6: `unlock()` without a prior successful `lock()` performs no
external action and does not throw, and a second `unlock()` right after
a successful one does nothing more: every release action in
`OpenBmcUpdater::unlock` (src/src/openbmc.cpp lines 172-181) and
`BIOSUpdater::unlock` (src/src/image_bios.cpp lines 335-376) is guarded
by the per-updater `locked` flag, which `lock` sets and `unlock`
clears. -/
theorem Updaters.unlock_unlocked_noop_and_idempotent :
    (∀ su : String → Except String Unit,
       OpenBmcUpdater.unlock su false = .ok (false, [])) ∧
    (∀ (su : String → Except String Unit) (s : Bool) (r : Bool × List Ev),
       OpenBmcUpdater.unlock su s = .ok r →
       ∀ su2 : String → Except String Unit,
         OpenBmcUpdater.unlock su2 r.1 = .ok (r.1, [])) ∧
    (∀ (ext : BIOSUpdater.BiosExt) (ug up : Bool) (s : BIOSUpdater.BiosState),
       s.locked = false → BIOSUpdater.unlock ext ug up s = .ok (s, [])) ∧
    (∀ (ext : BIOSUpdater.BiosExt) (ug up : Bool) (s : BIOSUpdater.BiosState)
       (r : BIOSUpdater.BiosState × List Ev),
       BIOSUpdater.unlock ext ug up s = .ok r →
       ∀ ext2 : BIOSUpdater.BiosExt,
         BIOSUpdater.unlock ext2 ug up r.1 = .ok (r.1, [])) := by
  have hbm : ∀ (ext : BIOSUpdater.BiosExt) (ug up : Bool)
      (s : BIOSUpdater.BiosState), s.locked = false →
      BIOSUpdater.unlock ext ug up s = .ok (s, []) := by
    intro ext ug up s hs
    rw [BIOSUpdater.unlock, if_neg (by simp [hs])]
  have hom : ∀ (su : String → Except String Unit),
      OpenBmcUpdater.unlock su false = .ok (false, []) := by
    intro su
    rw [OpenBmcUpdater.unlock, if_neg (by simp)]
  refine ⟨hom, ?_, hbm, ?_⟩
  · intro su s r h su2
    have hr : r.1 = false := by
      rw [OpenBmcUpdater.unlock] at h
      by_cases hs : s = true
      · rw [if_pos hs] at h
        split at h
        · cases h
        · cases h
          rfl
      · rw [if_neg hs] at h
        cases h
        simpa using hs
    rw [hr]
    exact hom su2
  · intro ext ug up s r h ext2
    have hr := BIOSUpdater.unlock_ok_unlocked ext ug up s r h
    exact hbm ext2 ug up r.1 hr

/-- Witness for C6: concrete runs of both unlocks.  An OpenBMC updater
that locked successfully and unlocked once does nothing on the second
unlock, and a BIOS updater that was never locked performs no action and
does not throw. -/
theorem Updaters.unlock_unlocked_noop_and_idempotent_witness :
    OpenBmcUpdater.unlock (fun _ => .ok ()) false = .ok (false, []) ∧
    OpenBmcUpdater.unlock (fun _ => .ok ())
      (OpenBmcUpdater.unlock (fun _ => .ok ()) true).toOption.get!.1 =
      .ok (false, []) ∧
    BIOSUpdater.unlock ⟨true, true, fun _ => true, 3⟩ true true
      ⟨false, -1, false, false, false⟩ =
      .ok (⟨false, -1, false, false, false⟩, []) := by
  refine ⟨Updaters.unlock_unlocked_noop_and_idempotent.1 (fun _ => .ok ()), ?_, ?_⟩
  · have h2 := Updaters.unlock_unlocked_noop_and_idempotent.2.1
      (fun _ => .ok ()) true (false, [Ev.startUnit "reboot-guard-disable"]) rfl
      (fun _ => .ok ())
    exact h2
  · exact Updaters.unlock_unlocked_noop_and_idempotent.2.2.1
      ⟨true, true, fun _ => true, 3⟩ true true ⟨false, -1, false, false, false⟩ rfl

namespace openpower

/-- Looking up the key just assigned yields the assigned value. -/
theorem findVal_mapAssign_self (m : List (List Char × Bool)) (k : List Char)
    (v : Bool) : findVal (mapAssign m k v) k = some v := by
  induction m with
  | nil => simp [mapAssign, findVal]
  | cons p rest ih =>
    by_cases hp : p.1 = k
    · simp [mapAssign, hp, findVal]
    · simp only [mapAssign]
      rw [if_neg (by simpa using hp)]
      simp only [findVal]
      rw [if_neg (by simpa using hp)]
      exact ih

/-- Assigning one key leaves the value of any other key unchanged. -/
theorem findVal_mapAssign_other (m : List (List Char × Bool)) (k n : List Char)
    (v : Bool) (hne : k ≠ n) : findVal (mapAssign m k v) n = findVal m n := by
  induction m with
  | nil => simp [mapAssign, findVal, hne]
  | cons p rest ih =>
    by_cases hp : p.1 = k
    · simp only [mapAssign]
      rw [if_pos (by simpa using hp)]
      simp only [findVal]
      rw [if_neg hne, if_neg (by simpa [hp] using hne)]
    · simp only [mapAssign]
      rw [if_neg (by simpa using hp)]
      simp only [findVal]
      by_cases hn : p.1 = n
      · rw [if_pos (by simpa using hn), if_pos (by simpa using hn)]
      · rw [if_neg (by simpa using hn), if_neg (by simpa using hn)]
        exact ih

/-- The accumulation step of `getPartsToClear`. -/
def step (m : List (List Char × Bool)) (l : List Char) :
    List (List Char × Bool) :=
  match perLine l with
  | none => m
  | some (n, e) => mapAssign m n e

/-- A key is present after the fold exactly when it was present before
or some processed line produces it. -/
theorem findVal_fold_some_iff (ls : List (List Char))
    (m : List (List Char × Bool)) (n : List Char) :
    (∃ b, findVal (ls.foldl step m) n = some b) ↔
      ((∃ b, findVal m n = some b) ∨ ∃ l ∈ ls, ∃ b, perLine l = some (n, b)) := by
  induction ls generalizing m with
  | nil => simp
  | cons l rest ih =>
    rw [List.foldl_cons, ih]
    cases hpl : perLine l with
    | none =>
      simp only [step, hpl]
      constructor
      · rintro (h | ⟨l', hl', hb⟩)
        · exact Or.inl h
        · exact Or.inr ⟨l', List.mem_cons_of_mem l hl', hb⟩
      · rintro (h | ⟨l', hl', b, hb⟩)
        · exact Or.inl h
        · rcases List.mem_cons.mp hl' with rfl | hmem
          · rw [hpl] at hb; cases hb
          · exact Or.inr ⟨l', hmem, b, hb⟩
    | some p =>
      obtain ⟨k, v⟩ := p
      simp only [step, hpl]
      by_cases hk : k = n
      · subst hk
        simp only [findVal_mapAssign_self]
        constructor
        · intro _
          exact Or.inr ⟨l, by simp, v, hpl⟩
        · intro _
          exact Or.inl ⟨v, rfl⟩
      · rw [findVal_mapAssign_other m k n v hk]
        constructor
        · rintro (h | ⟨l', hl', hb⟩)
          · exact Or.inl h
          · exact Or.inr ⟨l', List.mem_cons_of_mem l hl', hb⟩
        · rintro (h | ⟨l', hl', b, hb⟩)
          · exact Or.inl h
          · rcases List.mem_cons.mp hl' with rfl | hmem
            · rw [hpl] at hb
              cases hb
              exact absurd rfl hk
            · exact Or.inr ⟨l', hmem, b, hb⟩

/-- Every value stored after the fold comes from the initial map or from
one of the processed lines. -/
theorem findVal_fold_source (ls : List (List Char))
    (m : List (List Char × Bool)) (n : List Char) (b : Bool)
    (h : findVal (ls.foldl step m) n = some b) :
    findVal m n = some b ∨ ∃ l ∈ ls, perLine l = some (n, b) := by
  induction ls generalizing m with
  | nil => exact Or.inl h
  | cons l rest ih =>
    rw [List.foldl_cons] at h
    rcases ih (step m l) h with hm | ⟨l', hl', hb⟩
    · cases hpl : perLine l with
      | none =>
        rw [step, hpl] at hm
        exact Or.inl hm
      | some p =>
        obtain ⟨k, v⟩ := p
        rw [step, hpl] at hm
        by_cases hk : k = n
        · subst hk
          rw [findVal_mapAssign_self] at hm
          cases hm
          exact Or.inr ⟨l, by simp, hpl⟩
        · rw [findVal_mapAssign_other m k n v hk] at hm
          exact Or.inl hm
    · exact Or.inr ⟨l', List.mem_cons_of_mem l hl', hb⟩

end openpower

/-- `getPartsToClear` is the fold of `step` over the input lines. -/
theorem openpower.getPartsToClear_eq_fold (info : List Char) :
    openpower.getPartsToClear info =
      (openpower.getLines info).foldl openpower.step [] := rfl

/-- Claim C8: the PNOR partition parser keeps exactly the partitions of
lines whose flag field (the substring running from the first opening
bracket to the end of the line) carries the reprovision flag F, each
mapped to the presence of the ECC flag E; the specification's example
line yields the single entry MVPD with ECC required, and a line without
F contributes nothing (src/src/openpower.cpp lines 26-71). -/
theorem openpower.getPartsToClear_spec :
    openpower.getPartsToClear openpower.exLine = [(openpower.mvpdName, true)] ∧
    (∀ line : List Char, (openpower.flagsField line).contains 'F' = false →
       openpower.perLine line = none) ∧
    (∀ (line n : List Char) (b : Bool), openpower.perLine line = some (n, b) →
       (openpower.flagsField line).contains 'F' = true ∧
       b = (openpower.flagsField line).contains 'E') ∧
    (∀ (info n : List Char),
       (∃ b, openpower.findVal (openpower.getPartsToClear info) n = some b) ↔
       ∃ l ∈ openpower.getLines info, ∃ b, openpower.perLine l = some (n, b)) ∧
    (∀ (info n : List Char) (b : Bool),
       openpower.findVal (openpower.getPartsToClear info) n = some b →
       ∃ l ∈ openpower.getLines info, openpower.perLine l = some (n, b)) := by
  refine ⟨by decide, ?_, ?_, ?_, ?_⟩
  · intro line hF
    simp only [openpower.perLine, hF]
    simp
  · intro line n b h
    simp only [openpower.perLine] at h
    split_ifs at h with h0 h1 h2 h3 h4
    all_goals cases h
    exact ⟨h1, rfl⟩
  · intro info n
    rw [openpower.getPartsToClear_eq_fold,
      openpower.findVal_fold_some_iff (openpower.getLines info) [] n]
    simp [openpower.findVal]
  · intro info n b h
    rw [openpower.getPartsToClear_eq_fold] at h
    rcases openpower.findVal_fold_source (openpower.getLines info) [] n b h with
      hm | hsrc
    · simp [openpower.findVal] at hm
    · exact hsrc

/-- Witness for C8: the example line produces the MVPD entry, and a line
without the F flag is dropped. -/
theorem openpower.getPartsToClear_spec_witness :
    openpower.perLine openpower.noFLine = none ∧
    ∃ l ∈ openpower.getLines openpower.exLine,
      openpower.perLine l = some (openpower.mvpdName, true) := by
  constructor
  · exact openpower.getPartsToClear_spec.2.1 openpower.noFLine (by decide)
  · exact openpower.getPartsToClear_spec.2.2.2.2 openpower.exLine
      openpower.mvpdName true (by decide)

namespace NvmX722

/-- A successful `wordPtr` returns exactly the in-bank byte position and
guarantees the whole access fits inside the mapped file. -/
theorem wordPtr_ok_elim (m : Nvm) (off need p : Nat)
    (h : wordPtr m off need = .ok p) :
    p = m.start + off * 2 ∧ p + need ≤ m.size := by
  rw [wordPtr] at h
  split_ifs at h with hgt
  all_goals cases h
  exact ⟨rfl, by omega⟩

/-- `wordPtr` rejects any access that would run past the mapped size. -/
theorem wordPtr_oob (m : Nvm) (off need : Nat)
    (h : m.size < m.start + off * 2 + need) :
    wordPtr m off need = .error "Invalid 10GBE NVM" := by
  rw [wordPtr, if_pos (by omega)]

/-- `wordPtr` ignores the data content. -/
theorem wordPtr_data_irrel (d1 d2 : Nat → Nat) (sz st off need : Nat) :
    wordPtr ⟨d1, sz, st⟩ off need = wordPtr ⟨d2, sz, st⟩ off need := rfl

/-- A successful `readWord` implies the two bytes it read are inside the
mapped file and at or after the selected bank start. -/
theorem readWord_ok_bound (m : Nvm) (off w : Nat)
    (h : readWord m off = .ok w) : m.start + off * 2 + 2 ≤ m.size := by
  rw [readWord] at h
  cases hp : wordPtr m off 2 with
  | error e => rw [hp] at h; cases h
  | ok p =>
    have := wordPtr_ok_elim m off 2 p hp
    omega

/-- Two data contents that agree on the mapped range at or after the
bank start give the same `readWord` results. -/
theorem readWord_agree (d1 d2 : Nat → Nat) (sz st off : Nat)
    (h : ∀ i, st ≤ i → i < sz → d1 i = d2 i) :
    readWord ⟨d1, sz, st⟩ off = readWord ⟨d2, sz, st⟩ off := by
  rw [readWord, readWord, wordPtr_data_irrel d1 d2]
  cases hp : wordPtr ⟨d2, sz, st⟩ off 2 with
  | error e => rfl
  | ok p =>
    obtain ⟨hp1, hp2⟩ := wordPtr_ok_elim ⟨d2, sz, st⟩ off 2 p hp
    simp only [byteAt]
    rw [h p (by simp at hp1 ⊢; omega) (by simp at hp2 ⊢; omega),
      h (p + 1) (by simp at hp1 ⊢; omega) (by simp at hp2 ⊢; omega)]

/-- The MAC read loop depends only on data inside the mapped range at or
after the bank start. -/
theorem readMacLoop_agree (d1 d2 : Nat → Nat) (sz st : Nat)
    (h : ∀ i, st ≤ i → i < sz → d1 i = d2 i) :
    ∀ n offset, readMacLoop ⟨d1, sz, st⟩ n offset = readMacLoop ⟨d2, sz, st⟩ n offset := by
  intro n
  induction n with
  | zero => intro offset; rfl
  | succ k ih =>
    intro offset
    rw [readMacLoop, readMacLoop, wordPtr_data_irrel d1 d2]
    cases hp : wordPtr ⟨d2, sz, st⟩ ((offset + macHeaderSize) % 65536) 6 with
    | error e => rfl
    | ok p =>
      obtain ⟨hp1, hp2⟩ := wordPtr_ok_elim _ _ 6 p hp
      simp only at hp1 hp2
      rw [ih]
      cases readMacLoop ⟨d2, sz, st⟩ k (((offset + macHeaderSize) % 65536 + 3) % 65536) with
      | error e => rfl
      | ok rest =>
        simp only [macBytes, byteAt]
        rw [h p (by omega) (by omega), h (p + 1) (by omega) (by omega),
          h (p + 2) (by omega) (by omega), h (p + 3) (by omega) (by omega),
          h (p + 4) (by omega) (by omega), h (p + 5) (by omega) (by omega)]

/-- The MAC-table pointer chain depends only on data inside the mapped
range at or after the bank start. -/
theorem macOffset_agree (d1 d2 : Nat → Nat) (sz st : Nat)
    (h : ∀ i, st ≤ i → i < sz → d1 i = d2 i) :
    macOffset ⟨d1, sz, st⟩ = macOffset ⟨d2, sz, st⟩ := by
  rw [macOffset, macOffset, readWord_agree d1 d2 sz st magicOffset1 h]
  cases readWord ⟨d2, sz, st⟩ magicOffset1 with
  | error e => rfl
  | ok o1 =>
    dsimp only
    rw [readWord_agree d1 d2 sz st ((o1 + magicOffset2) % 65536) h]

/-- `getMac` depends only on data inside the mapped range at or after
the bank start: the selected bank is accessed exclusively through the
bounds-checked start-relative accessors. -/
theorem getMac_agree (d1 d2 : Nat → Nat) (sz st : Nat)
    (h : ∀ i, st ≤ i → i < sz → d1 i = d2 i) :
    getMac ⟨d1, sz, st⟩ = getMac ⟨d2, sz, st⟩ := by
  rw [getMac, getMac, macOffset_agree d1 d2 sz st h]
  cases macOffset ⟨d2, sz, st⟩ with
  | error e => rfl
  | ok off => exact readMacLoop_agree d1 d2 sz st h maxMac off

/-- The checksum summation loop depends only on data inside the mapped
range at or after the bank start. -/
theorem checksumLoop_agree (d1 d2 : Nat → Nat) (sz st v : Nat)
    (h : ∀ i, st ≤ i → i < sz → d1 i = d2 i) :
    ∀ fuel i acc, checksumLoop ⟨d1, sz, st⟩ v fuel i acc =
      checksumLoop ⟨d2, sz, st⟩ v fuel i acc := by
  intro fuel
  induction fuel with
  | zero => intro i acc; rfl
  | succ k ih =>
    intro i acc
    rw [checksumLoop, checksumLoop]
    split_ifs with h1 h2 h3
    · exact ih (i + 1) acc
    · exact ih (i + 1) acc
    · rfl
    · rw [readWord_agree d1 d2 sz st i h]
      cases readWord ⟨d2, sz, st⟩ i with
      | error e => rfl
      | ok w => exact ih (i + 1) ((acc + w) % 65536)

/-- `calcChecksum` depends only on data inside the mapped range at or
after the bank start. -/
theorem calcChecksum_agree (d1 d2 : Nat → Nat) (sz st : Nat)
    (h : ∀ i, st ≤ i → i < sz → d1 i = d2 i) :
    calcChecksum ⟨d1, sz, st⟩ = calcChecksum ⟨d2, sz, st⟩ := by
  rw [calcChecksum, calcChecksum, readWord_agree d1 d2 sz st vpdOffset h]
  cases readWord ⟨d2, sz, st⟩ vpdOffset with
  | error e => rfl
  | ok v =>
    dsimp only
    rw [checksumLoop_agree d1 d2 sz st v h (bankSize / 2) 0 0]

end NvmX722

namespace NvmX722

/-- Writes performed by the MAC write loop never touch bytes at or past
the mapped size. -/
theorem writeMacLoop_no_oob_write (m : Nvm) :
    ∀ (macs : List (List Nat)) (d : Nat → Nat) (offset : Nat) (d' : Nat → Nat),
      writeMacLoop m d offset macs = .ok d' →
      ∀ j, m.size ≤ j → d' j = d j := by
  intro macs
  induction macs with
  | nil =>
    intro d offset d' h j hj
    cases h
    rfl
  | cons mc rest ih =>
    intro d offset d' h j hj
    rw [writeMacLoop] at h
    cases hp : wordPtr m ((offset + macHeaderSize) % 65536) 6 with
    | error e => rw [hp] at h; cases h
    | ok p =>
      rw [hp] at h
      obtain ⟨hp1, hp2⟩ := wordPtr_ok_elim m _ 6 p hp
      have hw := ih (write6 d p mc) (((offset + macHeaderSize) % 65536 + 3) % 65536) d' h j hj
      rw [hw, write6]
      rw [if_neg (by omega), if_neg (by omega), if_neg (by omega),
        if_neg (by omega), if_neg (by omega), if_neg (by omega)]

/-- `setMac` never modifies bytes at or past the mapped size: every
write goes through the bounds-checked accessor. -/
theorem setMac_no_oob_write (m : Nvm) (mac : List (List Nat)) (m' : Nvm)
    (h : setMac m mac = .ok m') : ∀ j, m.size ≤ j → m'.data j = m.data j := by
  intro j hj
  rw [setMac] at h
  cases h1 : macOffset m with
  | error e => rw [h1] at h; cases h
  | ok off =>
    rw [h1] at h
    dsimp only at h
    cases h2 : writeMacLoop m m.data off mac with
    | error e => rw [h2] at h; cases h
    | ok d1 =>
      rw [h2] at h
      dsimp only at h
      cases h3 : wordPtr m checksumOffset 2 with
      | error e => rw [h3] at h; cases h
      | ok pc =>
        rw [h3] at h
        dsimp only at h
        cases h4 : calcChecksum ⟨d1, m.size, m.start⟩ with
        | error e => rw [h4] at h; cases h
        | ok c =>
          rw [h4] at h
          dsimp only at h
          cases h
          obtain ⟨hp1, hp2⟩ := wordPtr_ok_elim m checksumOffset 2 pc h3
          simp only
          rw [if_neg (by omega), if_neg (by omega)]
          exact writeMacLoop_no_oob_write m mac m.data off d1 h2 j hj

end NvmX722

/-- Claim C10: every word-level access of the NVM patcher goes through
the `wordPtr` bounds check, which fails with a clean error whenever the
selected bank start plus the byte offset of the access plus its size
would exceed the mapped file size; consequently the patcher never reads
or writes outside the opened image: reads (`readWord`, `getMac`,
`calcChecksum`, including any chained MAC-table pointer walk) depend
only on bytes below the mapped size, and `setMac` never modifies a byte
at or past the mapped size (src/src/nvm_x722.cpp lines 86-148). -/
theorem NvmX722.access_bounds_checked :
    (∀ (m : NvmX722.Nvm) (off need p : Nat),
       NvmX722.wordPtr m off need = .ok p →
       p = m.start + off * 2 ∧ p + need ≤ m.size) ∧
    (∀ (m : NvmX722.Nvm) (off need : Nat),
       m.size < m.start + off * 2 + need →
       NvmX722.wordPtr m off need = .error "Invalid 10GBE NVM") ∧
    (∀ (d1 d2 : Nat → Nat) (sz st : Nat), (∀ i, i < sz → d1 i = d2 i) →
       NvmX722.readWord ⟨d1, sz, st⟩ = NvmX722.readWord ⟨d2, sz, st⟩ ∧
       NvmX722.getMac ⟨d1, sz, st⟩ = NvmX722.getMac ⟨d2, sz, st⟩ ∧
       NvmX722.calcChecksum ⟨d1, sz, st⟩ = NvmX722.calcChecksum ⟨d2, sz, st⟩) ∧
    (∀ (m : NvmX722.Nvm) (mac : List (List Nat)) (m' : NvmX722.Nvm),
       NvmX722.setMac m mac = .ok m' →
       ∀ j, m.size ≤ j → m'.data j = m.data j) := by
  refine ⟨NvmX722.wordPtr_ok_elim, NvmX722.wordPtr_oob, ?_, NvmX722.setMac_no_oob_write⟩
  intro d1 d2 sz st hagree
  have h : ∀ i, st ≤ i → i < sz → d1 i = d2 i := fun i _ hi => hagree i hi
  exact ⟨funext fun off => NvmX722.readWord_agree d1 d2 sz st off h,
    NvmX722.getMac_agree d1 d2 sz st h,
    NvmX722.calcChecksum_agree d1 d2 sz st h⟩

/-- Witness for C10: a concrete in-bounds access resolves to the exact
byte position, a concrete overrunning access yields the clean error, the
result of `getMac` is unchanged when bytes outside the mapped size
change, and a concrete `setMac` run leaves an out-of-range byte
untouched. -/
theorem NvmX722.access_bounds_checked_witness :
    ((10 : Nat) = 4 + 3 * 2 ∧ 10 + 2 ≤ 16) ∧
    NvmX722.wordPtr ⟨fun _ => 0, 10, 0⟩ 5 2 = .error "Invalid 10GBE NVM" ∧
    NvmX722.getMac ⟨fun i => if i < 16 then 7 else 1, 16, 0⟩ =
      NvmX722.getMac ⟨fun i => if i < 16 then 7 else 2, 16, 0⟩ := by
  refine ⟨NvmX722.access_bounds_checked.1 ⟨fun _ => 0, 16, 4⟩ 3 2 10 rfl, ?_, ?_⟩
  · exact NvmX722.access_bounds_checked.2.1 ⟨fun _ => 0, 10, 0⟩ 5 2 (by norm_num)
  · exact (NvmX722.access_bounds_checked.2.2.1
      (fun i => if i < 16 then 7 else 1) (fun i => if i < 16 then 7 else 2) 16 0
      (fun i hi => by simp only [if_pos hi])).2.1

/-- Claim C4: when the primary bank's control word is not the valid
marker, the constructor selects the secondary bank one `bankSize`
further into the file; with that bank selected, `getMac` (and every
other accessor) reads only from the selected bank's start offset
onwards; when neither bank's control word matches the marker,
construction fails with the hard error (src/src/nvm_x722.cpp lines
52-63). -/
theorem NvmX722.construct_selects_secondary_bank
    (data : Nat → Nat) (size b w w2 : Nat)
    (hb : b = if size = NvmX722.nvmSize then 0 else NvmX722.nvmOffset)
    (hsz : NvmX722.nvmSize ≤ size)
    (hp : NvmX722.readWord ⟨data, size, b⟩ NvmX722.controlWord = .ok w)
    (hw : w ≠ NvmX722.bankValid)
    (hs : NvmX722.readWord ⟨data, size, b + NvmX722.bankSize⟩ NvmX722.controlWord
      = .ok w2) :
    (w2 = NvmX722.bankValid →
       NvmX722.construct data size = .ok ⟨data, size, b + NvmX722.bankSize⟩ ∧
       ∀ d2 : Nat → Nat,
         (∀ i, b + NvmX722.bankSize ≤ i → i < size → data i = d2 i) →
         NvmX722.getMac ⟨data, size, b + NvmX722.bankSize⟩ =
           NvmX722.getMac ⟨d2, size, b + NvmX722.bankSize⟩) ∧
    (w2 ≠ NvmX722.bankValid →
       NvmX722.construct data size = .error "No valid bank in 10GBE") := by
  have hcon : NvmX722.construct data size =
      (if w2 = NvmX722.bankValid then
         .ok ⟨data, size, b + NvmX722.bankSize⟩
       else .error "No valid bank in 10GBE") := by
    rw [NvmX722.construct, if_neg (by omega)]
    rw [← hb]
    dsimp only
    rw [hp]
    dsimp only
    rw [if_neg hw, hs]
  constructor
  · intro hv
    rw [hcon, if_pos hv]
    exact ⟨rfl, fun d2 hagree =>
      NvmX722.getMac_agree data d2 size (b + NvmX722.bankSize) hagree⟩
  · intro hv
    rw [hcon, if_neg hv]

/-- Witness for C4: a bare NVM image of exactly `nvmSize` bytes whose
primary control word is 0 and whose secondary control word carries the
valid marker; the constructor picks the bank at `bankSize` and `getMac`
ignores bytes below that bank's start. -/
theorem NvmX722.construct_selects_secondary_bank_witness :
    NvmX722.construct NvmX722.data4W NvmX722.nvmSize =
      .ok ⟨NvmX722.data4W, NvmX722.nvmSize, 0 + NvmX722.bankSize⟩ ∧
    NvmX722.getMac ⟨NvmX722.data4W, NvmX722.nvmSize, 0 + NvmX722.bankSize⟩ =
      NvmX722.getMac
        ⟨fun i => if i < NvmX722.bankSize then 5 else NvmX722.data4W i,
         NvmX722.nvmSize, 0 + NvmX722.bankSize⟩ := by
  have h := NvmX722.construct_selects_secondary_bank NvmX722.data4W
    NvmX722.nvmSize 0 0 NvmX722.bankValid rfl (by omega) rfl
    (by decide) rfl
  obtain ⟨hok, hagree⟩ := h.1 rfl
  refine ⟨hok, hagree _ (fun i hge _ => ?_)⟩
  rw [if_neg (by simp only [NvmX722.bankSize] at hge ⊢; omega)]

namespace NvmX722

/-- Writing back the six bytes that were read from the image leaves the
content unchanged. -/
theorem write6_macBytes_self (d dm : Nat → Nat) (p : Nat)
    (hwf : ∀ i, dm i < 256) (hd : ∀ j, d j = dm j) :
    ∀ j, write6 d p (macBytes dm p) j = dm j := by
  intro j
  have hb : ∀ i, byteAt dm i % 256 = dm i := by
    intro i
    rw [byteAt, Nat.mod_mod_of_dvd _ dvd_rfl, Nat.mod_eq_of_lt (hwf i)]
  rw [write6]
  split_ifs with e0 e1 e2 e3 e4 e5
  · rw [e0]; exact hb p
  · rw [e1]; exact hb (p + 1)
  · rw [e2]; exact hb (p + 2)
  · rw [e3]; exact hb (p + 3)
  · rw [e4]; exact hb (p + 4)
  · rw [e5]; exact hb (p + 5)
  · exact hd j

/-- Writing back the MAC entries read by `readMacLoop` reproduces the
original content pointwise. -/
theorem writeMacLoop_roundTrip (m : Nvm) (hwf : ∀ i, m.data i < 256) :
    ∀ (n offset : Nat) (macs : List (List Nat)) (d : Nat → Nat),
      readMacLoop m n offset = .ok macs → (∀ j, d j = m.data j) →
      ∃ d', writeMacLoop m d offset macs = .ok d' ∧ ∀ j, d' j = m.data j := by
  intro n
  induction n with
  | zero =>
    intro offset macs d h hd
    cases h
    exact ⟨d, rfl, hd⟩
  | succ k ih =>
    intro offset macs d h hd
    rw [readMacLoop] at h
    cases hp : wordPtr m ((offset + macHeaderSize) % 65536) 6 with
    | error e => rw [hp] at h; cases h
    | ok p =>
      rw [hp] at h
      dsimp only at h
      cases hrec : readMacLoop m k (((offset + macHeaderSize) % 65536 + 3) % 65536) with
      | error e => rw [hrec] at h; cases h
      | ok rest =>
        rw [hrec] at h
        dsimp only at h
        cases h
        obtain ⟨d', hw, hd'⟩ := ih (((offset + macHeaderSize) % 65536 + 3) % 65536)
          rest (write6 d p (macBytes m.data p)) hrec
          (write6_macBytes_self d m.data p hwf hd)
        refine ⟨d', ?_, hd'⟩
        rw [writeMacLoop, hp]
        exact hw

end NvmX722

/-- Claim C5: `setMac` recomputes the bank checksum (the 16-bit additive
complement `calcChecksum` over the bank excluding the checksum word, the
VPD sub-region located via its pointer word, and the trailing PCIe-ALT
sub-region) and persists it at the checksum word before returning; for
any image whose bytes are 8-bit, `setMac (getMac ())` changes no byte
other than (possibly) the two checksum-word bytes, which receive the
recomputed checksum of the unchanged bank, so when the stored checksum
was already the recomputed value the whole bank, checksum word included,
is left exactly as before the call (src/src/nvm_x722.cpp lines 107-132
and 150-173). -/
theorem NvmX722.setMac_getMac_roundTrip
    (m : NvmX722.Nvm) (mac : List (List Nat)) (c : Nat)
    (hwf : ∀ i, m.data i < 256)
    (hg : NvmX722.getMac m = .ok mac)
    (hc : NvmX722.calcChecksum m = .ok c) :
    ∃ m', NvmX722.setMac m mac = .ok m' ∧
      m'.size = m.size ∧ m'.start = m.start ∧
      m'.data (m.start + NvmX722.checksumOffset * 2) = c % 256 ∧
      m'.data (m.start + NvmX722.checksumOffset * 2 + 1) = c / 256 ∧
      (∀ i, i ≠ m.start + NvmX722.checksumOffset * 2 →
        i ≠ m.start + NvmX722.checksumOffset * 2 + 1 → m'.data i = m.data i) ∧
      (m.data (m.start + NvmX722.checksumOffset * 2) = c % 256 →
       m.data (m.start + NvmX722.checksumOffset * 2 + 1) = c / 256 →
       ∀ i, m'.data i = m.data i) := by
  rw [NvmX722.getMac] at hg
  cases hmo : NvmX722.macOffset m with
  | error e => rw [hmo] at hg; cases hg
  | ok off =>
    rw [hmo] at hg
    dsimp only at hg
    have hbound : m.start + NvmX722.magicOffset1 * 2 + 2 ≤ m.size := by
      rw [NvmX722.macOffset] at hmo
      cases h1 : NvmX722.readWord m NvmX722.magicOffset1 with
      | error e => rw [h1] at hmo; cases hmo
      | ok o1 => exact NvmX722.readWord_ok_bound m NvmX722.magicOffset1 o1 h1
    have hpc : NvmX722.wordPtr m NvmX722.checksumOffset 2 =
        .ok (m.start + NvmX722.checksumOffset * 2) := by
      rw [NvmX722.wordPtr, if_neg (by
        simp only [NvmX722.checksumOffset, NvmX722.magicOffset1] at hbound ⊢
        omega)]
    obtain ⟨d1, hw, hd1⟩ := NvmX722.writeMacLoop_roundTrip m hwf NvmX722.maxMac
      off mac m.data hg (fun j => rfl)
    have hcc : NvmX722.calcChecksum ⟨d1, m.size, m.start⟩ = .ok c := by
      have := NvmX722.calcChecksum_agree d1 m.data m.size m.start
        (fun i _ _ => hd1 i)
      rw [this]
      exact hc
    have hset : NvmX722.setMac m mac =
        .ok ⟨fun j => if j = m.start + NvmX722.checksumOffset * 2 then c % 256
                      else if j = m.start + NvmX722.checksumOffset * 2 + 1 then c / 256
                      else d1 j, m.size, m.start⟩ := by
      rw [NvmX722.setMac, hmo]
      dsimp only
      rw [hw]
      dsimp only
      rw [hpc]
      dsimp only
      rw [hcc]
    refine ⟨_, hset, rfl, rfl, ?_, ?_, ?_, ?_⟩
    · dsimp only
      rw [if_pos rfl]
    · dsimp only
      rw [if_neg (by omega), if_pos rfl]
    · intro i hi1 hi2
      dsimp only
      rw [if_neg hi1, if_neg hi2]
      exact hd1 i
    · intro hs1 hs2 i
      dsimp only
      by_cases hi1 : i = m.start + NvmX722.checksumOffset * 2
      · rw [if_pos hi1, hi1, hs1]
      · rw [if_neg hi1]
        by_cases hi2 : i = m.start + NvmX722.checksumOffset * 2 + 1
        · rw [if_pos hi2, hi2, hs2]
        · rw [if_neg hi2]
          exact hd1 i

namespace NvmX722

/-- Advancing the checksum loop over a run of words that are skipped or
read as zero leaves the accumulator unchanged and consumes one fuel per
word. -/
theorem checksumLoop_run (m : Nvm) (v : Nat) :
    ∀ (k f i acc : Nat), acc < 65536 →
      (∀ j, i ≤ j → j < i + k →
        (j = checksumOffset ∨ (v ≤ j ∧ j < v + vpdSize / 2) ∨
         (j < (bankSize - pcieAltSize) / 2 ∧ readWord m j = .ok 0))) →
      checksumLoop m v (k + f) i acc = checksumLoop m v f (i + k) acc := by
  intro k
  induction k with
  | zero =>
    intro f i acc _ _
    rw [Nat.zero_add, Nat.add_zero]
  | succ t ih =>
    intro f i acc hacc hall
    have hfe : t + 1 + f = t + f + 1 := by omega
    rw [hfe]
    have hstep : checksumLoop m v (t + f + 1) i acc =
        checksumLoop m v (t + f) (i + 1) acc := by
      by_cases h1 : i = checksumOffset
      · rw [checksumLoop, if_pos h1]
      · rw [checksumLoop, if_neg h1]
        by_cases h2 : v ≤ i ∧ i < v + vpdSize / 2
        · rw [if_pos h2]
        · rw [if_neg h2]
          rcases hall i (le_refl i) (by omega) with hc | hc | ⟨hlt, hread⟩
          · exact absurd hc h1
          · exact absurd hc h2
          · rw [if_neg (by omega), hread]
            dsimp only
            rw [show (acc + 0) % 65536 = acc from by omega]
    rw [hstep, ih f (i + 1) acc hacc
      (fun j hj1 hj2 => hall j (by omega) (by omega))]
    have hie : i + 1 + t = i + (t + 1) := by omega
    rw [hie]

/-- Once the loop index reaches the trailing PCIe ALT module the loop
stops and returns the accumulator. -/
theorem checksumLoop_break (m : Nvm) (v f i acc : Nat)
    (hne : i ≠ checksumOffset) (hnv : ¬(v ≤ i ∧ i < v + vpdSize / 2))
    (hbrk : (bankSize - pcieAltSize) / 2 ≤ i) :
    checksumLoop m v (f + 1) i acc = .ok acc := by
  rw [checksumLoop, if_neg hne, if_neg hnv, if_pos hbrk]

/-- All bytes of the concrete image `dataW` are 8-bit. -/
theorem dataW_lt_256 : ∀ i, dataW i < 256 := by
  intro i
  simp only [dataW]
  split_ifs <;> norm_num

/-- `dataW` is zero from byte 1024 onwards. -/
theorem dataW_zero_of_ge (i : Nat) (h : 1024 ≤ i) : dataW i = 0 := by
  simp only [dataW]
  rw [if_neg (by omega), if_neg (by omega), if_neg (by omega),
    if_neg (by omega), if_neg (by omega), if_neg (by omega)]

/-- Every word of `mW` between the VPD region and the PCIe ALT module
reads as zero. -/
theorem readWord_mW_zero (j : Nat) (h1 : 512 ≤ j) (h2 : j < 32256) :
    readWord mW j = .ok 0 := by
  rw [readWord, wordPtr]
  simp only [mW]
  rw [if_neg (by simp only [nvmSize]; omega)]
  dsimp only
  rw [byteAt, byteAt, dataW_zero_of_ge (0 + j * 2) (by omega),
    dataW_zero_of_ge (0 + j * 2 + 1) (by omega)]

/-- The checksum of the concrete image `mW` evaluates to the stored
value 0xbaba. -/
theorem calcChecksum_mW : calcChecksum mW = .ok 0xbaba := by
  have hrv : readWord mW vpdOffset = .ok 0 := by rfl
  have h1 : checksumLoop mW 0 32768 0 0 = checksumLoop mW 0 32256 512 0 := by
    have := checksumLoop_run mW 0 512 32256 0 0 (by norm_num)
      (fun j hj1 hj2 => Or.inr (Or.inl
        ⟨Nat.zero_le j, by simp only [vpdSize] at hj2 ⊢; omega⟩))
    norm_num at this
    exact this
  have h2 : checksumLoop mW 0 32256 512 0 = checksumLoop mW 0 512 32256 0 := by
    have := checksumLoop_run mW 0 31744 512 512 0 (by norm_num)
      (fun j hj1 hj2 => Or.inr (Or.inr
        ⟨by simp only [bankSize, pcieAltSize]; omega,
         readWord_mW_zero j (by omega) (by omega)⟩))
    norm_num at this
    exact this
  have h3 : checksumLoop mW 0 512 32256 0 = .ok 0 := by
    have := checksumLoop_break mW 0 511 32256 0
      (by simp only [checksumOffset]; omega)
      (by simp only [vpdSize]; omega)
      (by simp only [bankSize, pcieAltSize]; omega)
    norm_num at this
    exact this
  rw [calcChecksum, hrv]
  dsimp only
  rw [show bankSize / 2 = 32768 from by norm_num [bankSize], h1, h2, h3]
  dsimp only
  rw [show (checksumBase + 65536 - 0) % 65536 = 0xbaba from by
    norm_num [checksumBase]]

end NvmX722

/-- Witness for C5: on the concrete image `mW` (valid bank, zero MAC
entries, correct stored checksum 0xbaba) the round trip
`setMac (getMac ())` succeeds and leaves every byte of the mapping
unchanged. -/
theorem NvmX722.setMac_getMac_roundTrip_witness :
    ∃ m', NvmX722.setMac NvmX722.mW NvmX722.macZ = .ok m' ∧
      ∀ i, m'.data i = NvmX722.mW.data i := by
  obtain ⟨m', hset, _, _, _, _, _, hfull⟩ :=
    NvmX722.setMac_getMac_roundTrip NvmX722.mW NvmX722.macZ 0xbaba
      NvmX722.dataW_lt_256 rfl NvmX722.calcChecksum_mW
  exact ⟨m', hset, hfull rfl rfl⟩
